import Mathlib

/-!
# Verification of the state-observation core

This file gives a shallow embedding of the two core components of the
state-observation library and proves the behavioral properties stated in its
design specification.

* `ZeroDelayObserver` — the time-indexed buffering and causal-advance loop of
  `include/state-observer/zero-delay-observer.hpp`.  The header only declares
  the interface (the `zero-delay-observer.hxx` implementation is not part of
  the available sources), so the operational definitions below are modelled
  from the specification text and from the documentation comments of the
  header.  Time indices are `unsigned` in the header and are embedded as `ℕ`.

* `RigidBodyKinematics` — the integrators declared in
  `include/state-observation/dynamical-system/algorithm/rigid-body-kinematics.hpp`
  (again only the declarations are available; the bodies are modelled from the
  specification).  The C++ `double` arithmetic is embedded as exact real
  arithmetic over `ℝ`.
-/

namespace StateObservation

/-! ## Zero-delay observer: data model -/

/-- Modelled from the spec (§7, the error taxonomy): the four caller contract
violations reported by the observer. -/
inductive ObserverError where
  | uninitialized
  | nonCausal
  | missingData
  | outOfOrder
deriving DecidableEq

/-- Modelled from the spec (§3, observer internal state): the single retained
state tagged with `currentTime` (absent before the first `setState`), and the
two gap-free time-indexed buffers.  `σ`, `μ`, `ι` stand for the state,
measurement and input vector types (dimensions n, m, p in the header). -/
structure ZeroDelayObserver (σ μ ι : Type) where
  x : Option (ℕ × σ)
  y : List (ℕ × μ)
  u : List (ℕ × ι)
deriving DecidableEq

/-! ## Zero-delay observer: operations

The bodies of the member functions live in `zero-delay-observer.hxx`, which is
not among the available sources; every operation below is therefore modelled
from the specification (§4.2) and the doc comments of
`zero-delay-observer.hpp`.  A C++ member function that mutates the object and
may throw is embedded as a function returning the new observer value together
with an optional error; when an error is reported the returned observer equals
the argument (a throwing call leaves the object as it was at the last
consistent point). -/

/-- Modelled from the spec: `setState(x, k)` replaces the single retained
state with `x` at time `k`; any previous retained state is discarded and no
ordering constraint is checked (the header declares it `void`: it cannot
fail). -/
def setState {σ μ ι : Type} (xk : σ) (k : ℕ) (s : ZeroDelayObserver σ μ ι) :
    ZeroDelayObserver σ μ ι :=
  { s with x := some (k, xk) }

/-- Modelled from the spec: `clearState()` discards the retained state. -/
def clearState {σ μ ι : Type} (s : ZeroDelayObserver σ μ ι) :
    ZeroDelayObserver σ μ ι :=
  { s with x := none }

/-- Highest (most recent) time index stored in a buffer, if any. -/
def lastIndex {α : Type} (b : List (ℕ × α)) : Option ℕ :=
  b.getLast?.map Prod.fst

/-- Modelled from the spec: chronological, gap-free insertion at the back of a
buffer.  On an empty buffer any starting index is accepted; otherwise the new
index must be exactly one past the buffer's current maximum, and a violation
leaves the buffer unchanged (`none`). -/
def pushBack {α : Type} (v : α) (k : ℕ) (b : List (ℕ × α)) :
    Option (List (ℕ × α)) :=
  match lastIndex b with
  | none => some (b ++ [(k, v)])
  | some j => if k = j + 1 then some (b ++ [(k, v)]) else none

/-- Modelled from the spec: `setMeasurement(y, k)` appends to the measurement
buffer, reporting `outOfOrder` (and leaving the observer unchanged) when `k`
violates the chronological/no-gap precondition. -/
def setMeasurement {σ μ ι : Type} (yk : μ) (k : ℕ)
    (s : ZeroDelayObserver σ μ ι) :
    ZeroDelayObserver σ μ ι × Option ObserverError :=
  match pushBack yk k s.y with
  | some b => ({ s with y := b }, none)
  | none => (s, some .outOfOrder)

/-- Modelled from the spec: `setInput(u, k)`, the input analogue of
`setMeasurement`. -/
def setInput {σ μ ι : Type} (uk : ι) (k : ℕ) (s : ZeroDelayObserver σ μ ι) :
    ZeroDelayObserver σ μ ι × Option ObserverError :=
  match pushBack uk k s.u with
  | some b => ({ s with u := b }, none)
  | none => (s, some .outOfOrder)

/-- Modelled from the spec: `clearMeasurements()`. -/
def clearMeasurements {σ μ ι : Type} (s : ZeroDelayObserver σ μ ι) :
    ZeroDelayObserver σ μ ι :=
  { s with y := [] }

/-- Modelled from the spec: `clearInputs()`. -/
def clearInputs {σ μ ι : Type} (s : ZeroDelayObserver σ μ ι) :
    ZeroDelayObserver σ μ ι :=
  { s with u := [] }

/-- Modelled from the spec: `getCurrentTime()` returns the time index of the
retained state (`k_0`), without side effects. -/
def getCurrentTime {σ μ ι : Type} (s : ZeroDelayObserver σ μ ι) : ℕ :=
  match s.x with
  | some (k, _) => k
  | none => 0

/-- Remove (consume) the entry with time index `k` from a buffer, returning
its value and the remaining buffer, or `none` when no such entry exists. -/
def consume {α : Type} (k : ℕ) : List (ℕ × α) → Option (α × List (ℕ × α))
  | [] => none
  | (j, v) :: t =>
    if k = j then some (v, t)
    else
      match consume k t with
      | some (w, t2) => some (w, (j, v) :: t2)
      | none => none

/-- Modelled from the spec: one loop of the observer, from `k_0` to `k_0 + 1`.
The abstract hook `oneStepEstimation_` is embedded as a function of the
retained state, the consumed measurement `y_{k_0+1}` and the consumed input
`u_{k_0}` (the consumption convention documented in the header).  The step is
unsatisfiable (`none`) when no state is set or a required buffer entry is
missing. -/
def oneStep {σ μ ι : Type} (hook : σ → μ → ι → σ) (s : ZeroDelayObserver σ μ ι) :
    Option (ZeroDelayObserver σ μ ι) :=
  match s.x with
  | none => none
  | some (k0, xv) =>
    match consume (k0 + 1) s.y, consume k0 s.u with
    | some (yk, yb), some (uk, ub) =>
      some { x := some (k0 + 1, hook xv yk uk), y := yb, u := ub }
    | _, _ => none

/-- `c` consecutive successful observer loops. -/
def advanceN {σ μ ι : Type} (hook : σ → μ → ι → σ) :
    ℕ → ZeroDelayObserver σ μ ι → Option (ZeroDelayObserver σ μ ι)
  | 0, s => some s
  | c + 1, s =>
    match oneStep hook s with
    | some s2 => advanceN hook c s2
    | none => none

/-- Modelled from the spec: the estimation loop body of `getEstimateState`,
running at most `fuel` one-step estimations and stopping at the first
unsatisfiable step; already-completed steps remain committed.  Returns the
observer after the last successful step and the number of hook invocations
performed. -/
def estimateLoop {σ μ ι : Type} (hook : σ → μ → ι → σ) :
    ℕ → ZeroDelayObserver σ μ ι → ZeroDelayObserver σ μ ι × ℕ
  | 0, s => (s, 0)
  | fuel + 1, s =>
    match oneStep hook s with
    | some s2 =>
      let r := estimateLoop hook fuel s2
      (r.1, r.2 + 1)
    | none => (s, 0)

/-- Modelled from the spec: `getEstimateState(k)`.  Reports `uninitialized`
before any `setState`, `nonCausal` when `k ≤ currentTime` (with no state
mutation), and otherwise runs the estimation loop from `currentTime + 1` up to
`k`; when data runs out it reports `missingData`, leaving the observer at the
last fully completed step.  The result carries the returned state estimate (or
the error), the observer after the call, and the number of
`oneStepEstimation_` invocations. -/
def getEstimateState {σ μ ι : Type} (hook : σ → μ → ι → σ) (k : ℕ)
    (s : ZeroDelayObserver σ μ ι) :
    Except ObserverError σ × ZeroDelayObserver σ μ ι × ℕ :=
  match s.x with
  | none => (.error .uninitialized, s, 0)
  | some (k0, _) =>
    if k ≤ k0 then (.error .nonCausal, s, 0)
    else
      let r := estimateLoop hook (k - k0) s
      match r.1.x with
      | some (k1, xv) =>
        if k1 = k then (.ok xv, r.1, r.2) else (.error .missingData, r.1, r.2)
      | none => (.error .missingData, r.1, r.2)

/-! ## Rigid-body kinematics: data model -/

/-- 3D vector over exact reals (embeds Eigen `Vector3`). -/
abbrev Vector3 : Type := Fin 3 → ℝ

/-- 3×3 real matrix (embeds Eigen `Matrix3`). -/
abbrev Matrix3 : Type := Matrix (Fin 3) (Fin 3) ℝ

/-- Squared Euclidean norm of a 3D vector. -/
def v3normSq (v : Vector3) : ℝ := v 0 ^ 2 + v 1 ^ 2 + v 2 ^ 2

/-- Euclidean norm of a 3D vector. -/
noncomputable def v3norm (v : Vector3) : ℝ := Real.sqrt (v3normSq v)

/-- Modelled from the spec: the small numerical threshold below which a
rotation-vector magnitude is treated as zero (the header material calls it
`cst::epsilonAngle`; its defining translation unit is not among the available
sources, only its positivity and smallness matter). -/
noncomputable def epsilonAngle : ℝ := 1 / 10 ^ 9

/-- The unit vector in the direction of `v` (meaningful when `v ≠ 0`). -/
noncomputable def normalizeV3 (v : Vector3) : Vector3 :=
  fun i => v i / v3norm v

/-- Rodrigues rotation matrix for a given axis and angle: the exponential map
of the rotation vector axis·angle. -/
noncomputable def rodrigues (a : Vector3) (θ : ℝ) : Matrix3 :=
  let c := Real.cos θ
  let s := Real.sin θ
  let w := 1 - c
  !![c + a 0 ^ 2 * w, a 0 * a 1 * w - a 2 * s, a 0 * a 2 * w + a 1 * s;
     a 0 * a 1 * w + a 2 * s, c + a 1 ^ 2 * w, a 1 * a 2 * w - a 0 * s;
     a 0 * a 2 * w - a 1 * s, a 1 * a 2 * w + a 0 * s, c + a 2 ^ 2 * w]

/-- Modelled from the spec: the incremental rotation of one integration step,
the exponential map of the rotation vector `ω·dt` — axis `ω/‖ω‖`, angle
`‖ω‖·dt` — treated as the identity when `‖ω‖` is below the small numerical
threshold (to avoid the division by zero). -/
noncomputable def rotationIncrement (ω : Vector3) (dt : ℝ) : Matrix3 :=
  if v3norm ω < epsilonAngle then 1
  else rodrigues (normalizeV3 ω) (v3norm ω * dt)

open Classical in
/-- Modelled from the spec: re-orthonormalization of the composed orientation
(the spec names polar decomposition as an example method).  Its contract
(glossary) is to correct a near-rotation matrix back to an exact orthonormal
matrix; on an exactly orthonormal matrix — the only case arising in exact real
arithmetic, where no floating-point drift exists — the correction is the
identity map, which is the property modelled here.  The theorems below never
rely on the value returned for a non-orthonormal argument. -/
noncomputable def orthonormalize (M : Matrix3) : Matrix3 :=
  if Matrix.transpose M * M = 1 then M else 1

open Classical in
/-- Modelled from the spec: re-normalization of a quaternion to unit norm. -/
noncomputable def renormalizeQ (q : Quaternion ℝ) : Quaternion ℝ :=
  ‖q‖⁻¹ • q

/-- Modelled from the spec: the incremental rotation of one integration step
as a unit quaternion — half-angle `‖ω‖·dt / 2` about axis `ω/‖ω‖` — treated
as the identity when `‖ω‖` is below the small numerical threshold. -/
noncomputable def rotationIncrementQ (ω : Vector3) (dt : ℝ) : Quaternion ℝ :=
  if v3norm ω < epsilonAngle then 1
  else
    ⟨Real.cos (v3norm ω * dt / 2),
     Real.sin (v3norm ω * dt / 2) * normalizeV3 ω 0,
     Real.sin (v3norm ω * dt / 2) * normalizeV3 ω 1,
     Real.sin (v3norm ω * dt / 2) * normalizeV3 ω 2⟩

/-- The five in/out parameters of the matrix overload of
`integrateKinematics`, gathered after one step. -/
structure KinematicsState where
  position : Vector3
  velocity : Vector3
  orientation : Matrix3
  rotationVelocity : Vector3

/-- The five in/out parameters of the quaternion overload of
`integrateKinematics`, gathered after one step. -/
structure KinematicsStateQ where
  position : Vector3
  velocity : Vector3
  orientation : Quaternion ℝ
  rotationVelocity : Vector3

/-- Modelled from the spec: the matrix overload of `integrateKinematics` —
semi-implicit integration.  Velocity is updated first from the acceleration,
then position from the updated velocity; angular velocity is updated first
from the angular acceleration, then the orientation is composed with the
exponential map of the updated `ω·dt` and re-orthonormalized. -/
noncomputable def integrateKinematics (position velocity acceleration : Vector3)
    (orientation : Matrix3) (rotationVelocity rotationAcceleration : Vector3)
    (dt : ℝ) : KinematicsState :=
  let v2 := velocity + dt • acceleration
  let p2 := position + dt • v2
  let ω2 := rotationVelocity + dt • rotationAcceleration
  ⟨p2, v2, orthonormalize (orientation * rotationIncrement ω2 dt), ω2⟩

/-- Modelled from the spec: the quaternion overload of `integrateKinematics`;
the increment is composed by quaternion multiplication and the result is
re-normalized to unit norm. -/
noncomputable def integrateKinematicsQ (position velocity acceleration : Vector3)
    (orientation : Quaternion ℝ) (rotationVelocity rotationAcceleration : Vector3)
    (dt : ℝ) : KinematicsStateQ :=
  let v2 := velocity + dt • acceleration
  let p2 := position + dt • v2
  let ω2 := rotationVelocity + dt • rotationAcceleration
  ⟨p2, v2, renormalizeQ (orientation * rotationIncrementQ ω2 dt), ω2⟩

/-- Modelled from the spec: `integrateConfiguration` — velocity-driven,
matrix representation only; velocity and angular velocity are not mutated. -/
noncomputable def integrateConfiguration (position velocity : Vector3)
    (orientation : Matrix3) (rotationVelocity : Vector3) (dt : ℝ) :
    Vector3 × Matrix3 :=
  (position + dt • velocity,
   orthonormalize (orientation * rotationIncrement rotationVelocity dt))

/-- One integration step of the matrix representation: either overload of the
acceleration-driven `integrateKinematics` entry point, or the velocity-driven
`integrateConfiguration` entry point with its caller-supplied velocities. -/
inductive MatrixStep where
  | kin (acceleration rotationAcceleration : Vector3) (dt : ℝ)
  | conf (velocity rotationVelocity : Vector3) (dt : ℝ)

/-- Apply one matrix-representation integration step to the running state. -/
noncomputable def applyMatrixStep (st : KinematicsState) :
    MatrixStep → KinematicsState
  | .kin a α dt =>
    integrateKinematics st.position st.velocity a st.orientation
      st.rotationVelocity α dt
  | .conf vel ωv dt =>
    let r := integrateConfiguration st.position vel st.orientation ωv dt
    ⟨r.1, st.velocity, r.2, st.rotationVelocity⟩

/-- One integration step of the quaternion representation (the quaternion
overload of `integrateKinematics`). -/
structure QStep where
  acceleration : Vector3
  rotationAcceleration : Vector3
  dt : ℝ

/-- Apply one quaternion-representation integration step. -/
noncomputable def applyQStep (st : KinematicsStateQ) (stp : QStep) :
    KinematicsStateQ :=
  integrateKinematicsQ st.position st.velocity stp.acceleration st.orientation
    st.rotationVelocity stp.rotationAcceleration stp.dt

/-- A valid rotation: orthonormal with unit determinant. -/
def IsRotation (M : Matrix3) : Prop :=
  Matrix.transpose M * M = 1 ∧ M.det = 1

/-! ## Observer lemmas -/

theorem oneStep_x {σ μ ι : Type} (hook : σ → μ → ι → σ)
    (s s2 : ZeroDelayObserver σ μ ι) (h : oneStep hook s = some s2) :
    ∃ xv, s2.x = some (getCurrentTime s + 1, xv) := by
  unfold oneStep at h
  rcases hx : s.x with _ | ⟨k0, xv⟩ <;> rw [hx] at h
  · simp at h
  · dsimp only at h
    rcases hy : consume (k0 + 1) s.y with _ | ⟨yk, yb⟩ <;> rw [hy] at h
    · simp at h
    · rcases hu : consume k0 s.u with _ | ⟨uk, ub⟩ <;> rw [hu] at h
      · simp at h
      · dsimp only at h
        refine ⟨hook xv yk uk, ?_⟩
        rw [← Option.some_inj.mp h]
        simp [getCurrentTime, hx]

theorem advanceN_x {σ μ ι : Type} (hook : σ → μ → ι → σ) (c : ℕ) :
    ∀ (s s2 : ZeroDelayObserver σ μ ι), advanceN hook c s = some s2 →
      ∀ k0 xv, s.x = some (k0, xv) → ∃ yv, s2.x = some (k0 + c, yv) := by
  induction c with
  | zero =>
    intro s s2 h k0 xv hx
    simp only [advanceN, Option.some.injEq] at h
    refine ⟨xv, ?_⟩
    rw [← h, hx]
    norm_num
  | succ n ih =>
    intro s s2 h k0 xv hx
    unfold advanceN at h
    rcases ho : oneStep hook s with _ | s1 <;> rw [ho] at h
    · simp at h
    · dsimp only at h
      obtain ⟨xv1, hx1⟩ := oneStep_x hook s s1 ho
      have hct : getCurrentTime s = k0 := by simp [getCurrentTime, hx]
      rw [hct] at hx1
      obtain ⟨yv, hyv⟩ := ih s1 s2 h (k0 + 1) xv1 hx1
      exact ⟨yv, by rw [hyv]; ring_nf⟩

theorem estimateLoop_spec {σ μ ι : Type} (hook : σ → μ → ι → σ) (fuel : ℕ) :
    ∀ s : ZeroDelayObserver σ μ ι,
      advanceN hook (estimateLoop hook fuel s).2 s =
          some (estimateLoop hook fuel s).1 ∧
      (estimateLoop hook fuel s).2 ≤ fuel ∧
      ((estimateLoop hook fuel s).2 < fuel →
        oneStep hook (estimateLoop hook fuel s).1 = none) := by
  induction fuel with
  | zero => intro s; refine ⟨rfl, le_refl _, fun hlt => absurd hlt (by simp)⟩
  | succ n ih =>
    intro s
    cases ho : oneStep hook s with
    | none =>
      refine ⟨?_, ?_, ?_⟩ <;> simp [estimateLoop, advanceN, ho]
    | some s2 =>
      have h2 := ih s2
      simp only [estimateLoop, ho]
      refine ⟨?_, ?_, ?_⟩
      · simp only [advanceN, ho]
        exact h2.1
      · exact Nat.succ_le_succ h2.2.1
      · intro hlt
        exact h2.2.2 (Nat.lt_of_succ_lt_succ hlt)

/-! ## Claims about the observer -/

/-- C1: from a state set at time 0 via `setState`, with measurements buffered
for indices 1..5 and inputs for indices 0..4 (plus arbitrary further entries),
`getEstimateState 5` invokes the one-step hook exactly 5 times, replaces the
retained state with the hook's result after each step, ends with current time
5, removes exactly the consumed entries from both buffers, and preserves the
remaining entries. -/
theorem getEstimateState_advance_correct (σ μ ι : Type) (hook : σ → μ → ι → σ)
    (x0 : σ) (xp : Option (ℕ × σ)) (y1 y2 y3 y4 y5 : μ) (u0 u1 u2 u3 u4 : ι)
    (yext : List (ℕ × μ)) (uext : List (ℕ × ι)) :
    getEstimateState hook 5
        (setState x0 0
          { x := xp,
            y := [(1, y1), (2, y2), (3, y3), (4, y4), (5, y5)] ++ yext,
            u := [(0, u0), (1, u1), (2, u2), (3, u3), (4, u4)] ++ uext }) =
      (Except.ok
        (hook (hook (hook (hook (hook x0 y1 u0) y2 u1) y3 u2) y4 u3) y5 u4),
       { x := some (5,
          hook (hook (hook (hook (hook x0 y1 u0) y2 u1) y3 u2) y4 u3) y5 u4),
         y := yext, u := uext }, 5) ∧
    getCurrentTime (getEstimateState hook 5
        (setState x0 0
          { x := xp,
            y := [(1, y1), (2, y2), (3, y3), (4, y4), (5, y5)] ++ yext,
            u := [(0, u0), (1, u1), (2, u2), (3, u3), (4, u4)] ++ uext })).2.1 =
      5 :=
  ⟨rfl, rfl⟩

/-- C2: a non-causal request `getEstimateState k` with `k ≤ currentTime` fails
with the non-causal error and performs no state mutation: the observer
(retained state, current time, and both buffers) is returned unchanged and the
hook is never invoked. -/
theorem getEstimateState_nonCausal_rejects {σ μ ι : Type}
    (hook : σ → μ → ι → σ) (s : ZeroDelayObserver σ μ ι) (k0 k : ℕ) (xv : σ)
    (hx : s.x = some (k0, xv)) (hk : k ≤ k0) :
    getEstimateState hook k s = (.error .nonCausal, s, 0) := by
  unfold getEstimateState
  rw [hx]
  simp [hk]

/-- Witness for C2: an observer at current time 5 rejects
`getEstimateState 3` without mutation. -/
theorem getEstimateState_nonCausal_rejects_witness :
    ({ x := some (5, 0), y := [], u := [] } : ZeroDelayObserver ℕ ℕ ℕ).x =
        some (5, 0) ∧
    (3 : ℕ) ≤ 5 ∧
    getEstimateState (fun a _ _ => a) 3
        ({ x := some (5, 0), y := [], u := [] } : ZeroDelayObserver ℕ ℕ ℕ) =
      (.error .nonCausal, { x := some (5, 0), y := [], u := [] }, 0) :=
  ⟨rfl, by decide,
    getEstimateState_nonCausal_rejects (fun a _ _ => a) _ 5 3 0 rfl
      (by decide)⟩

/-- C3: `setMeasurement`/`setInput` with an index that is not exactly one past
the non-empty buffer's highest index fail with the out-of-order error and
leave the observer unchanged; on an empty buffer any starting index is
accepted. -/
theorem setMeasurement_setInput_chronological {σ μ ι : Type}
    (s : ZeroDelayObserver σ μ ι) (yk : μ) (uk : ι) (k j : ℕ) :
    (lastIndex s.y = some j → k ≠ j + 1 →
      setMeasurement yk k s = (s, some .outOfOrder)) ∧
    (lastIndex s.u = some j → k ≠ j + 1 →
      setInput uk k s = (s, some .outOfOrder)) ∧
    (s.y = [] → setMeasurement yk k s = ({ s with y := [(k, yk)] }, none)) ∧
    (s.u = [] → setInput uk k s = ({ s with u := [(k, uk)] }, none)) := by
  refine ⟨?_, ?_, ?_, ?_⟩
  · intro hj hk
    unfold setMeasurement pushBack
    rw [hj]
    simp [hk]
  · intro hj hk
    unfold setInput pushBack
    rw [hj]
    simp [hk]
  · intro hy
    unfold setMeasurement pushBack lastIndex
    rw [hy]
    simp
  · intro hu
    unfold setInput pushBack lastIndex
    rw [hu]
    simp

/-- Witness for C3: after an entry at index 5, inserting at index 7 (gap) and
at index 5 (duplicate) both fail and leave the buffer unchanged; the first
insertion into an empty buffer is accepted. -/
theorem setMeasurement_setInput_chronological_witness :
    (lastIndex ([(5, 40)] : List (ℕ × ℕ)) = some 5 ∧ (7 : ℕ) ≠ 5 + 1 ∧
      setMeasurement 40 7
          ({ x := none, y := [(5, 40)], u := [] } : ZeroDelayObserver ℕ ℕ ℕ) =
        ({ x := none, y := [(5, 40)], u := [] }, some .outOfOrder)) ∧
    ((5 : ℕ) ≠ 5 + 1 ∧
      setMeasurement 40 5
          ({ x := none, y := [(5, 40)], u := [] } : ZeroDelayObserver ℕ ℕ ℕ) =
        ({ x := none, y := [(5, 40)], u := [] }, some .outOfOrder)) ∧
    setMeasurement 40 5
        ({ x := none, y := [], u := [] } : ZeroDelayObserver ℕ ℕ ℕ) =
      ({ x := none, y := [(5, 40)], u := [] }, none) :=
  ⟨⟨rfl, by decide,
    (setMeasurement_setInput_chronological _ 40 0 7 5).1 rfl (by decide)⟩,
   ⟨by decide,
    (setMeasurement_setInput_chronological _ 40 0 5 5).1 rfl (by decide)⟩,
   (setMeasurement_setInput_chronological _ 40 0 5 5).2.2.1 rfl⟩

/-- C4: when `getEstimateState k` (with `k` in the future) fails for lack of
buffered data, it fails at the first unsatisfiable step and every
already-completed step remains committed: the returned observer is reached
from the initial one by exactly the number of successful one-step estimations
performed, its current time is the highest index successfully reached (below
`k`), and the step from that index is unsatisfiable. -/
theorem getEstimateState_missingData_commits {σ μ ι : Type}
    (hook : σ → μ → ι → σ) (s : ZeroDelayObserver σ μ ι) (k0 k : ℕ) (xv : σ)
    (hx : s.x = some (k0, xv)) (hk : k0 < k)
    (hmiss : (getEstimateState hook k s).1 = .error .missingData) :
    advanceN hook (getEstimateState hook k s).2.2 s =
        some (getEstimateState hook k s).2.1 ∧
    getCurrentTime (getEstimateState hook k s).2.1 =
        k0 + (getEstimateState hook k s).2.2 ∧
    k0 + (getEstimateState hook k s).2.2 < k ∧
    oneStep hook (getEstimateState hook k s).2.1 = none := by
  have hne : ¬ k ≤ k0 := not_le.2 hk
  obtain ⟨L1, L2, L3⟩ := estimateLoop_spec hook (k - k0) s
  obtain ⟨yv, hy1⟩ := advanceN_x hook (estimateLoop hook (k - k0) s).2 s
      (estimateLoop hook (k - k0) s).1 L1 k0 xv hx
  by_cases heq : k0 + (estimateLoop hook (k - k0) s).2 = k
  · exfalso
    have hok : getEstimateState hook k s =
        (Except.ok yv, (estimateLoop hook (k - k0) s).1,
          (estimateLoop hook (k - k0) s).2) := by
      simp only [getEstimateState, hx]
      rw [if_neg hne]
      simp only [hy1]
      rw [if_pos heq]
    rw [hok] at hmiss
    simp at hmiss
  · have hGeq : getEstimateState hook k s =
        (Except.error .missingData, (estimateLoop hook (k - k0) s).1,
          (estimateLoop hook (k - k0) s).2) := by
      simp only [getEstimateState, hx]
      rw [if_neg hne]
      simp only [hy1]
      rw [if_neg heq]
    rw [hGeq]
    dsimp only
    refine ⟨L1, by simp [getCurrentTime, hy1], by omega, ?_⟩
    apply L3
    omega

/-- Witness for C4: state at time 0, measurements buffered only for indices
1..5, inputs for 0..9; `getEstimateState 10` completes 5 steps, then fails on
the missing measurement 6, leaving current time 5. -/
theorem getEstimateState_missingData_commits_witness :
    ({ x := some (0, 7), y := [(1, 1), (2, 2), (3, 3), (4, 4), (5, 5)],
       u := [(0, 0), (1, 0), (2, 0), (3, 0), (4, 0), (5, 0), (6, 0), (7, 0),
             (8, 0), (9, 0)] } : ZeroDelayObserver ℕ ℕ ℕ).x = some (0, 7) ∧
    (0 : ℕ) < 10 ∧
    (getEstimateState (fun a _ _ => a) 10
        ({ x := some (0, 7), y := [(1, 1), (2, 2), (3, 3), (4, 4), (5, 5)],
           u := [(0, 0), (1, 0), (2, 0), (3, 0), (4, 0), (5, 0), (6, 0),
                 (7, 0), (8, 0), (9, 0)] } : ZeroDelayObserver ℕ ℕ ℕ)).1 =
      .error .missingData ∧
    0 + (getEstimateState (fun a _ _ => a) 10
        ({ x := some (0, 7), y := [(1, 1), (2, 2), (3, 3), (4, 4), (5, 5)],
           u := [(0, 0), (1, 0), (2, 0), (3, 0), (4, 0), (5, 0), (6, 0),
                 (7, 0), (8, 0), (9, 0)] } : ZeroDelayObserver ℕ ℕ ℕ)).2.2 <
      10 ∧
    oneStep (fun a _ _ => a)
        (getEstimateState (fun a _ _ => a) 10
          ({ x := some (0, 7), y := [(1, 1), (2, 2), (3, 3), (4, 4), (5, 5)],
             u := [(0, 0), (1, 0), (2, 0), (3, 0), (4, 0), (5, 0), (6, 0),
                   (7, 0), (8, 0), (9, 0)] } :
              ZeroDelayObserver ℕ ℕ ℕ)).2.1 = none :=
  ⟨rfl, by decide, rfl,
   (getEstimateState_missingData_commits (fun a _ _ => a)
      ({ x := some (0, 7), y := [(1, 1), (2, 2), (3, 3), (4, 4), (5, 5)],
         u := [(0, 0), (1, 0), (2, 0), (3, 0), (4, 0), (5, 0), (6, 0), (7, 0),
               (8, 0), (9, 0)] } : ZeroDelayObserver ℕ ℕ ℕ) 0 10 7 rfl
      (by decide) rfl).2.2.1,
   (getEstimateState_missingData_commits (fun a _ _ => a)
      ({ x := some (0, 7), y := [(1, 1), (2, 2), (3, 3), (4, 4), (5, 5)],
         u := [(0, 0), (1, 0), (2, 0), (3, 0), (4, 0), (5, 0), (6, 0), (7, 0),
               (8, 0), (9, 0)] } : ZeroDelayObserver ℕ ℕ ℕ) 0 10 7 rfl
      (by decide) rfl).2.2.2⟩

/-- C5: `setState x k` replaces the single retained state with `x` at time
`k`, discarding any previous retained state and leaving both buffers
untouched, with no constraint on how `k` compares to the previous current
time or to the buffered indices. -/
theorem setState_replaces_retained_state {σ μ ι : Type} (x : σ) (k : ℕ)
    (s : ZeroDelayObserver σ μ ι) :
    setState x k s = { x := some (k, x), y := s.y, u := s.u } ∧
    getCurrentTime (setState x k s) = k :=
  ⟨rfl, rfl⟩

/-- C10: all time indices of the observer interface are `unsigned`, embedded
as `ℕ`: the current time, and the current time after any interface call, are
non-negative integers (a negative time index is not representable). -/
theorem interface_time_indices_nonneg {σ μ ι : Type}
    (hook : σ → μ → ι → σ) (s : ZeroDelayObserver σ μ ι) (x : σ) (yk : μ)
    (uk : ι) (k : ℕ) :
    0 ≤ (getCurrentTime s : ℤ) ∧
    0 ≤ (getCurrentTime (setState x k s) : ℤ) ∧
    0 ≤ (getCurrentTime (setMeasurement yk k s).1 : ℤ) ∧
    0 ≤ (getCurrentTime (setInput uk k s).1 : ℤ) ∧
    0 ≤ (getCurrentTime (getEstimateState hook k s).2.1 : ℤ) :=
  ⟨Int.natCast_nonneg _, Int.natCast_nonneg _, Int.natCast_nonneg _,
   Int.natCast_nonneg _, Int.natCast_nonneg _⟩

/-! ## Kinematics lemmas -/

theorem epsilonAngle_pos : 0 < epsilonAngle := by
  norm_num [epsilonAngle]

theorem v3normSq_nonneg (v : Vector3) : 0 ≤ v3normSq v := by
  unfold v3normSq
  positivity

theorem v3norm_sq (v : Vector3) : v3norm v ^ 2 = v3normSq v :=
  Real.sq_sqrt (v3normSq_nonneg v)

theorem v3norm_zero : v3norm (0 : Vector3) = 0 := by
  unfold v3norm v3normSq
  norm_num

theorem normalizeV3_unit (ω : Vector3) (h : ¬ v3norm ω < epsilonAngle) :
    v3normSq (normalizeV3 ω) = 1 := by
  have hn : 0 < v3norm ω := lt_of_lt_of_le epsilonAngle_pos (not_lt.1 h)
  have hsq : v3norm ω ^ 2 = v3normSq ω := v3norm_sq ω
  have hpos : 0 < v3normSq ω := by
    rw [← hsq]
    exact pow_pos hn 2
  show (ω 0 / v3norm ω) ^ 2 + (ω 1 / v3norm ω) ^ 2 + (ω 2 / v3norm ω) ^ 2 = 1
  have hrw : (ω 0 / v3norm ω) ^ 2 + (ω 1 / v3norm ω) ^ 2 +
      (ω 2 / v3norm ω) ^ 2 = v3normSq ω / v3norm ω ^ 2 := by
    unfold v3normSq
    ring
  rw [hrw, hsq, div_self (ne_of_gt hpos)]

theorem rodrigues_orth (a : Vector3) (θ : ℝ) (h : v3normSq a = 1) :
    Matrix.transpose (rodrigues a θ) * rodrigues a θ = 1 := by
  have ha : a 0 ^ 2 + a 1 ^ 2 + a 2 ^ 2 = 1 := h
  have hs : Real.sin θ ^ 2 + Real.cos θ ^ 2 = 1 := Real.sin_sq_add_cos_sq θ
  ext i j
  fin_cases i <;> fin_cases j <;>
    simp only [rodrigues, Matrix.mul_apply, Matrix.transpose_apply,
      Fin.sum_univ_three, Matrix.cons_val', Matrix.cons_val_zero,
      Matrix.cons_val_one, Matrix.head_cons, Matrix.empty_val',
      Matrix.cons_val_fin_one, Matrix.head_fin_const, Matrix.one_apply,
      Fin.isValue, Matrix.of_apply, Fin.zero_eta, Fin.mk_one] <;>
    norm_num [Fin.ext_iff]
  · linear_combination ((1 - Real.cos θ) ^ 2 * a 0 ^ 2 + Real.sin θ ^ 2) * ha +
      (1 - a 0 ^ 2) * hs
  · linear_combination (1 - Real.cos θ) ^ 2 * a 0 * a 1 * ha -
      a 0 * a 1 * hs
  · linear_combination (1 - Real.cos θ) ^ 2 * a 0 * a 2 * ha -
      a 0 * a 2 * hs
  · linear_combination (1 - Real.cos θ) ^ 2 * a 0 * a 1 * ha -
      a 0 * a 1 * hs
  · linear_combination ((1 - Real.cos θ) ^ 2 * a 1 ^ 2 + Real.sin θ ^ 2) * ha +
      (1 - a 1 ^ 2) * hs
  · linear_combination (1 - Real.cos θ) ^ 2 * a 1 * a 2 * ha -
      a 1 * a 2 * hs
  · linear_combination (1 - Real.cos θ) ^ 2 * a 0 * a 2 * ha -
      a 0 * a 2 * hs
  · linear_combination (1 - Real.cos θ) ^ 2 * a 1 * a 2 * ha -
      a 1 * a 2 * hs
  · linear_combination ((1 - Real.cos θ) ^ 2 * a 2 ^ 2 + Real.sin θ ^ 2) * ha +
      (1 - a 2 ^ 2) * hs

theorem rodrigues_det (a : Vector3) (θ : ℝ) (h : v3normSq a = 1) :
    (rodrigues a θ).det = 1 := by
  have ha : a 0 ^ 2 + a 1 ^ 2 + a 2 ^ 2 = 1 := h
  have hs : Real.sin θ ^ 2 + Real.cos θ ^ 2 = 1 := Real.sin_sq_add_cos_sq θ
  rw [Matrix.det_fin_three]
  simp only [rodrigues, Matrix.cons_val', Matrix.cons_val_zero,
    Matrix.cons_val_one, Matrix.head_cons, Matrix.empty_val',
    Matrix.cons_val_fin_one, Matrix.head_fin_const, Fin.isValue,
    Matrix.of_apply, Matrix.cons_val_two, Matrix.tail_cons]
  linear_combination (Real.cos θ ^ 2 * (1 - Real.cos θ) +
      Real.cos θ * Real.sin θ ^ 2 +
      Real.sin θ ^ 2 * (1 - Real.cos θ) *
        (1 + a 0 ^ 2 + a 1 ^ 2 + a 2 ^ 2)) * ha + hs

theorem isRotation_one : IsRotation 1 := by
  constructor <;> simp

theorem IsRotation.mul {A B : Matrix3} (hA : IsRotation A) (hB : IsRotation B) :
    IsRotation (A * B) := by
  constructor
  · rw [Matrix.transpose_mul, Matrix.mul_assoc,
      ← Matrix.mul_assoc (Matrix.transpose A) A B, hA.1, Matrix.one_mul, hB.1]
  · rw [Matrix.det_mul, hA.2, hB.2, one_mul]

theorem rodrigues_isRotation (a : Vector3) (θ : ℝ) (h : v3normSq a = 1) :
    IsRotation (rodrigues a θ) :=
  ⟨rodrigues_orth a θ h, rodrigues_det a θ h⟩

theorem rotationIncrement_isRotation (ω : Vector3) (dt : ℝ) :
    IsRotation (rotationIncrement ω dt) := by
  unfold rotationIncrement
  split
  · exact isRotation_one
  · next h => exact rodrigues_isRotation _ _ (normalizeV3_unit ω h)

theorem orthonormalize_orthogonal {M : Matrix3}
    (h : Matrix.transpose M * M = 1) : orthonormalize M = M := by
  unfold orthonormalize
  rw [if_pos h]

theorem integrateKinematics_orientation (position velocity acceleration : Vector3)
    (R : Matrix3) (rotationVelocity rotationAcceleration : Vector3) (dt : ℝ)
    (hR : IsRotation R) :
    (integrateKinematics position velocity acceleration R rotationVelocity
        rotationAcceleration dt).orientation =
      R * rotationIncrement (rotationVelocity + dt • rotationAcceleration) dt ∧
    IsRotation ((integrateKinematics position velocity acceleration R
        rotationVelocity rotationAcceleration dt).orientation) := by
  have hmul :
      IsRotation (R *
        rotationIncrement (rotationVelocity + dt • rotationAcceleration) dt) :=
    hR.mul (rotationIncrement_isRotation _ _)
  have he : (integrateKinematics position velocity acceleration R
      rotationVelocity rotationAcceleration dt).orientation =
      orthonormalize (R *
        rotationIncrement (rotationVelocity + dt • rotationAcceleration) dt) :=
    rfl
  rw [he, orthonormalize_orthogonal hmul.1]
  exact ⟨rfl, hmul⟩

theorem integrateConfiguration_orientation (position velocity : Vector3)
    (R : Matrix3) (rotationVelocity : Vector3) (dt : ℝ) (hR : IsRotation R) :
    IsRotation ((integrateConfiguration position velocity R rotationVelocity
        dt).2) := by
  have hmul := hR.mul (rotationIncrement_isRotation rotationVelocity dt)
  have he : (integrateConfiguration position velocity R rotationVelocity
      dt).2 = orthonormalize (R * rotationIncrement rotationVelocity dt) := rfl
  rw [he, orthonormalize_orthogonal hmul.1]
  exact hmul

theorem applyMatrixStep_orientation (st : KinematicsState) (stp : MatrixStep)
    (h : IsRotation st.orientation) :
    IsRotation ((applyMatrixStep st stp).orientation) := by
  cases stp with
  | kin a α dt =>
    exact (integrateKinematics_orientation st.position st.velocity a
      st.orientation st.rotationVelocity α dt h).2
  | conf vel ωv dt =>
    exact integrateConfiguration_orientation st.position vel st.orientation
      ωv dt h

theorem norm_eq_one_of_normSq_eq_one {q : Quaternion ℝ}
    (h : Quaternion.normSq q = 1) : ‖q‖ = 1 := by
  have h2 : ‖q‖ * ‖q‖ = 1 := by
    rw [← Quaternion.normSq_eq_norm_mul_self, h]
  rcases mul_self_eq_one_iff.mp h2 with h1 | h1
  · exact h1
  · exfalso
    have := norm_nonneg q
    rw [h1] at this
    linarith

theorem norm_rotationIncrementQ (ω : Vector3) (dt : ℝ) :
    ‖rotationIncrementQ ω dt‖ = 1 := by
  unfold rotationIncrementQ
  split
  · exact norm_one
  · next h =>
    apply norm_eq_one_of_normSq_eq_one
    rw [Quaternion.normSq_def']
    have ha : normalizeV3 ω 0 ^ 2 + normalizeV3 ω 1 ^ 2 +
        normalizeV3 ω 2 ^ 2 = 1 := normalizeV3_unit ω h
    have hs : Real.sin (v3norm ω * dt / 2) ^ 2 +
        Real.cos (v3norm ω * dt / 2) ^ 2 = 1 :=
      Real.sin_sq_add_cos_sq _
    dsimp only
    linear_combination Real.sin (v3norm ω * dt / 2) ^ 2 * ha + hs

theorem renormalizeQ_norm {q : Quaternion ℝ} (h : q ≠ 0) :
    ‖renormalizeQ q‖ = 1 := by
  unfold renormalizeQ
  rw [norm_smul, norm_inv, norm_norm]
  exact inv_mul_cancel₀ (norm_ne_zero_iff.mpr h)

theorem applyQStep_norm (st : KinematicsStateQ) (stp : QStep)
    (h : ‖st.orientation‖ = 1) :
    ‖(applyQStep st stp).orientation‖ = 1 := by
  have hn : ‖st.orientation *
      rotationIncrementQ
        (st.rotationVelocity + stp.dt • stp.rotationAcceleration) stp.dt‖ =
      1 := by
    rw [norm_mul, h, norm_rotationIncrementQ, one_mul]
  have he : (applyQStep st stp).orientation =
      renormalizeQ (st.orientation *
        rotationIncrementQ
          (st.rotationVelocity + stp.dt • stp.rotationAcceleration) stp.dt) :=
    rfl
  rw [he]
  apply renormalizeQ_norm
  intro h0
  rw [h0, norm_zero] at hn
  norm_num at hn

/-! ## Claims about the kinematics integrators -/

/-- C6: both overloads of `integrateKinematics` perform the semi-implicit
update in order — velocity from the acceleration first, then position from
the updated velocity; angular velocity from the angular acceleration first,
then the orientation composed with the exponential map of the updated
`ω·dt` — and whenever the norm of the (updated) angular velocity is below the
small numerical threshold the rotational increment is the identity
rotation. -/
theorem integrateKinematics_semi_implicit
    (position velocity acceleration : Vector3) (R : Matrix3)
    (q : Quaternion ℝ) (rotationVelocity rotationAcceleration : Vector3)
    (dt : ℝ) :
    (integrateKinematics position velocity acceleration R rotationVelocity
        rotationAcceleration dt).velocity = velocity + dt • acceleration ∧
    (integrateKinematics position velocity acceleration R rotationVelocity
        rotationAcceleration dt).position =
      position + dt • (integrateKinematics position velocity acceleration R
        rotationVelocity rotationAcceleration dt).velocity ∧
    (integrateKinematics position velocity acceleration R rotationVelocity
        rotationAcceleration dt).rotationVelocity =
      rotationVelocity + dt • rotationAcceleration ∧
    (integrateKinematics position velocity acceleration R rotationVelocity
        rotationAcceleration dt).orientation =
      orthonormalize (R *
        rotationIncrement (rotationVelocity + dt • rotationAcceleration) dt) ∧
    (integrateKinematicsQ position velocity acceleration q rotationVelocity
        rotationAcceleration dt).velocity = velocity + dt • acceleration ∧
    (integrateKinematicsQ position velocity acceleration q rotationVelocity
        rotationAcceleration dt).position =
      position + dt • (integrateKinematicsQ position velocity acceleration q
        rotationVelocity rotationAcceleration dt).velocity ∧
    (integrateKinematicsQ position velocity acceleration q rotationVelocity
        rotationAcceleration dt).rotationVelocity =
      rotationVelocity + dt • rotationAcceleration ∧
    (integrateKinematicsQ position velocity acceleration q rotationVelocity
        rotationAcceleration dt).orientation =
      renormalizeQ (q *
        rotationIncrementQ (rotationVelocity + dt • rotationAcceleration)
          dt) ∧
    (v3norm (rotationVelocity + dt • rotationAcceleration) < epsilonAngle →
      rotationIncrement (rotationVelocity + dt • rotationAcceleration) dt =
          1 ∧
      rotationIncrementQ (rotationVelocity + dt • rotationAcceleration) dt =
          1) := by
  refine ⟨rfl, rfl, rfl, rfl, rfl, rfl, rfl, rfl, fun h => ⟨?_, ?_⟩⟩
  · unfold rotationIncrement
    rw [if_pos h]
  · unfold rotationIncrementQ
    rw [if_pos h]

/-- Witness for C6: at zero angular velocity and acceleration the updated
angular velocity has norm below the threshold and both rotational increments
are the identity. -/
theorem integrateKinematics_semi_implicit_witness :
    v3norm ((0 : Vector3) + (1 : ℝ) • (0 : Vector3)) < epsilonAngle ∧
    (rotationIncrement ((0 : Vector3) + (1 : ℝ) • (0 : Vector3)) 1 = 1 ∧
      rotationIncrementQ ((0 : Vector3) + (1 : ℝ) • (0 : Vector3)) 1 = 1) := by
  have h0 : ((0 : Vector3) + (1 : ℝ) • (0 : Vector3)) = 0 := by simp
  have hv : v3norm ((0 : Vector3) + (1 : ℝ) • (0 : Vector3)) < epsilonAngle := by
    rw [h0, v3norm_zero]
    exact epsilonAngle_pos
  exact ⟨hv,
    (integrateKinematics_semi_implicit 0 0 0 1 1 0 0 1).2.2.2.2.2.2.2.2 hv⟩

/-- C7: under any sequence of integration steps — either overload of
`integrateKinematics` or `integrateConfiguration`, with arbitrary inputs —
the orientation stays a valid rotation after every step: the matrix
representation stays orthonormal with determinant 1, and the quaternion
representation stays unit-norm (the re-orthonormalization/re-normalization is
the identity in the exact-real embedding, where no numerical drift exists, so
the tolerance of the claim is met exactly). -/
theorem orientation_stays_rotation :
    (∀ (steps : List MatrixStep) (st : KinematicsState),
      IsRotation st.orientation →
      IsRotation ((steps.foldl applyMatrixStep st).orientation)) ∧
    (∀ (steps : List QStep) (st : KinematicsStateQ),
      ‖st.orientation‖ = 1 →
      ‖(steps.foldl applyQStep st).orientation‖ = 1) := by
  constructor
  · intro steps
    induction steps with
    | nil => intro st h; exact h
    | cons stp rest ih =>
      intro st h
      exact ih _ (applyMatrixStep_orientation st stp h)
  · intro steps
    induction steps with
    | nil => intro st h; exact h
    | cons stp rest ih =>
      intro st h
      exact ih _ (applyQStep_norm st stp h)

/-- Witness for C7: starting from the identity orientation, one
`integrateConfiguration` step and one quaternion `integrateKinematics` step
keep the orientation a valid rotation. -/
theorem orientation_stays_rotation_witness :
    IsRotation ((⟨0, 0, 1, 0⟩ : KinematicsState).orientation) ∧
    IsRotation
      (([MatrixStep.conf 0 0 1].foldl applyMatrixStep
        (⟨0, 0, 1, 0⟩ : KinematicsState)).orientation) ∧
    ‖(⟨0, 0, 1, 0⟩ : KinematicsStateQ).orientation‖ = 1 ∧
    ‖(([⟨0, 0, 1⟩] : List QStep).foldl applyQStep
        (⟨0, 0, 1, 0⟩ : KinematicsStateQ)).orientation‖ = 1 :=
  ⟨isRotation_one,
   orientation_stays_rotation.1 [MatrixStep.conf 0 0 1] ⟨0, 0, 1, 0⟩
     isRotation_one,
   norm_one,
   orientation_stays_rotation.2 [⟨0, 0, 1⟩] ⟨0, 0, 1, 0⟩ norm_one⟩

/-- C8: with zero velocity, acceleration, angular velocity and angular
acceleration, both `integrateKinematics` overloads and
`integrateConfiguration` leave the position and the (valid) orientation
unchanged, for any `dt`. -/
theorem zero_motion_fixed_point (position : Vector3) (R : Matrix3)
    (q : Quaternion ℝ) (dt : ℝ) (hR : Matrix.transpose R * R = 1)
    (hq : ‖q‖ = 1) :
    (integrateKinematics position 0 0 R 0 0 dt).position = position ∧
    (integrateKinematics position 0 0 R 0 0 dt).orientation = R ∧
    (integrateKinematicsQ position 0 0 q 0 0 dt).position = position ∧
    (integrateKinematicsQ position 0 0 q 0 0 dt).orientation = q ∧
    (integrateConfiguration position 0 R 0 dt).1 = position ∧
    (integrateConfiguration position 0 R 0 dt).2 = R := by
  have hz : (0 : Vector3) + dt • (0 : Vector3) = 0 := by simp
  have hvz : v3norm ((0 : Vector3) + dt • (0 : Vector3)) < epsilonAngle := by
    rw [hz, v3norm_zero]
    exact epsilonAngle_pos
  have hvz0 : v3norm (0 : Vector3) < epsilonAngle := by
    rw [v3norm_zero]
    exact epsilonAngle_pos
  have hinc : rotationIncrement ((0 : Vector3) + dt • (0 : Vector3)) dt = 1 := by
    unfold rotationIncrement
    rw [if_pos hvz]
  have hincq : rotationIncrementQ ((0 : Vector3) + dt • (0 : Vector3)) dt = 1 := by
    unfold rotationIncrementQ
    rw [if_pos hvz]
  have hinc0 : rotationIncrement (0 : Vector3) dt = 1 := by
    unfold rotationIncrement
    rw [if_pos hvz0]
  refine ⟨?_, ?_, ?_, ?_, ?_, ?_⟩
  · show position + dt • ((0 : Vector3) + dt • (0 : Vector3)) = position
    rw [hz]
    simp
  · show orthonormalize (R *
        rotationIncrement ((0 : Vector3) + dt • (0 : Vector3)) dt) = R
    rw [hinc, mul_one]
    exact orthonormalize_orthogonal hR
  · show position + dt • ((0 : Vector3) + dt • (0 : Vector3)) = position
    rw [hz]
    simp
  · show renormalizeQ (q *
        rotationIncrementQ ((0 : Vector3) + dt • (0 : Vector3)) dt) = q
    rw [hincq, mul_one]
    unfold renormalizeQ
    rw [hq, inv_one, one_smul]
  · show position + dt • (0 : Vector3) = position
    simp
  · show orthonormalize (R * rotationIncrement (0 : Vector3) dt) = R
    rw [hinc0, mul_one]
    exact orthonormalize_orthogonal hR

/-- Witness for C8: the zero-motion step from the identity orientation at
`dt = 1` moves nothing. -/
theorem zero_motion_fixed_point_witness :
    Matrix.transpose (1 : Matrix3) * 1 = 1 ∧ ‖(1 : Quaternion ℝ)‖ = 1 ∧
    (integrateKinematics 0 0 0 (1 : Matrix3) 0 0 1).orientation = 1 ∧
    (integrateKinematicsQ 0 0 0 (1 : Quaternion ℝ) 0 0 1).orientation = 1 ∧
    (integrateConfiguration 0 0 (1 : Matrix3) 0 1).1 = 0 :=
  ⟨by simp, norm_one,
   (zero_motion_fixed_point 0 1 1 1 (by simp) norm_one).2.1,
   (zero_motion_fixed_point 0 1 1 1 (by simp) norm_one).2.2.2.1,
   (zero_motion_fixed_point 0 1 1 1 (by simp) norm_one).2.2.2.2.1⟩

/-- C9: both `integrateKinematics` overloads and `integrateConfiguration`
are deterministic functions of their arguments — two calls with identical
inputs produce identical outputs; the embedding is a pure function of
exactly the call arguments, reflecting that `RigidBodyKinematics` declares
no data members (it "does not store any object") and the modelled bodies
use no hidden state or randomness. -/
theorem integration_deterministic (p1 p2 v1 v2 a1 a2 : Vector3)
    (R1 R2 : Matrix3) (q1 q2 : Quaternion ℝ) (ω1 ω2 α1 α2 : Vector3)
    (dt1 dt2 : ℝ) (hp : p1 = p2) (hv : v1 = v2) (ha : a1 = a2)
    (hR : R1 = R2) (hq : q1 = q2) (hω : ω1 = ω2) (hα : α1 = α2)
    (hdt : dt1 = dt2) :
    integrateKinematics p1 v1 a1 R1 ω1 α1 dt1 =
        integrateKinematics p2 v2 a2 R2 ω2 α2 dt2 ∧
    integrateKinematicsQ p1 v1 a1 q1 ω1 α1 dt1 =
        integrateKinematicsQ p2 v2 a2 q2 ω2 α2 dt2 ∧
    integrateConfiguration p1 v1 R1 ω1 dt1 =
        integrateConfiguration p2 v2 R2 ω2 dt2 := by
  subst hp hv ha hR hq hω hα hdt
  exact ⟨rfl, rfl, rfl⟩

/-- Witness for C9: repeated calls on one concrete input coincide. -/
theorem integration_deterministic_witness :
    (0 : Vector3) = 0 ∧
    integrateKinematics 0 0 0 (1 : Matrix3) 0 0 1 =
        integrateKinematics 0 0 0 (1 : Matrix3) 0 0 1 ∧
    integrateKinematicsQ 0 0 0 (1 : Quaternion ℝ) 0 0 1 =
        integrateKinematicsQ 0 0 0 (1 : Quaternion ℝ) 0 0 1 ∧
    integrateConfiguration 0 0 (1 : Matrix3) 0 1 =
        integrateConfiguration 0 0 (1 : Matrix3) 0 1 :=
  ⟨rfl,
   (integration_deterministic 0 0 0 0 0 0 1 1 1 1 0 0 0 0 1 1 rfl rfl rfl
      rfl rfl rfl rfl rfl).1,
   (integration_deterministic 0 0 0 0 0 0 1 1 1 1 0 0 0 0 1 1 rfl rfl rfl
      rfl rfl rfl rfl rfl).2.1,
   (integration_deterministic 0 0 0 0 0 0 1 1 1 1 0 0 0 0 1 1 rfl rfl rfl
      rfl rfl rfl rfl rfl).2.2⟩

end StateObservation
